import Mathlib

/-!
Verification development for the NOAA collection scraper pipeline.

Shallow embedding of the pieces of the repository that the properties
below are about:

* `url_scraper.update_database_from_waf` — the three-way set reconciler
  between a crawl result and the `etags` SQLite table;
* `url_scraper.worker` — the `/iso/` → `/iso/xml/` path-rewrite rule;
* `metadata_scraper.fetch_conditional` / `extract_metadata` / `main` —
  the conditional-fetch engine, classification of outcomes, the store
  updates performed by `main`, and the parquet merge/dedup step;
* `pipeline_runner.main` — the phase orchestrator.

Python dicts with optional keys are embedded as structures whose
optional keys are `Option` fields (`none` = key absent).  SQLite rows of
the `etags` table are embedded as an association list keyed by `url`
(the primary key).  Network and filesystem effects are embedded as
explicit parameters (a transport script listing the outcome of each
attempt, an abstract XML parser, an explicit "now" timestamp).
-/

namespace NoaaScraper

/-- Decidability of `≤` on `String` routed through the character lists,
so that concrete sorted lists evaluate by kernel reduction. -/
instance strDecLE : DecidableRel (fun a b : String => a ≤ b) := fun a b =>
  decidable_of_iff (¬ b.toList < a.toList)
    ((not_congr String.lt_iff_toList_lt).symm.trans not_lt)

/-- One row of the `etags` table (`db_utils.init_schema`):
`url TEXT PRIMARY KEY, etag TEXT, last_checked TIMESTAMP, deleted INTEGER`.
`deleted = true` encodes the integer 1 (inactive); `false` encodes 0. -/
structure EtagRow where
  etag : Option String
  lastChecked : Option String
  deleted : Bool
deriving DecidableEq

/-- The `etags` table: association list keyed by URL (primary key). -/
abbrev DB := List (String × EtagRow)

/-- The set of URLs present in the table (`db_records.keys()` in
`update_database_from_waf`). -/
def dbUrls (db : DB) : Finset String := (db.map Prod.fst).toFinset

/-- `db_records[url]` — the `deleted` flag of the row for `url`
(first row with that key; with the primary key there is exactly one).
Total function: returns `false` for an absent key (the Python code only
consults keys known to be present). -/
def dbDeleted (db : DB) (u : String) : Bool :=
  match db.lookup u with
  | some r => r.deleted
  | none => false

/-- `added = sorted(list(waf_urls - db_urls))`
(`url_scraper.update_database_from_waf`, line 150): the sorted
enumeration of the set difference — an explicit enumeration of
`set(current_urls) - set(db_urls)` put in ascending order. -/
def addedOf (db : DB) (waf : List String) : List String :=
  List.insertionSort (· ≤ ·)
    (waf.dedup.filter (fun u => !(db.map Prod.fst).contains u))

/-- `deleted = sorted(list(db_urls - waf_urls))`
(`url_scraper.update_database_from_waf`, line 151). -/
def deactivatedOf (db : DB) (waf : List String) : List String :=
  List.insertionSort (· ≤ ·)
    ((db.map Prod.fst).dedup.filter (fun u => !waf.contains u))

/-- The reactivation loop (`update_database_from_waf`, lines 162-165):
`for url in waf_urls & db_urls: if db_records[url] == 1: reactivated.append(url)`.
CPython iterates the intersection *set* in hash order, which is
unspecified; `iter` is that iteration order, passed explicitly. -/
def reactivatedOf (db : DB) (iter : List String) : List String :=
  iter.filter (fun u => dbDeleted db u)

/-- `iter` is a legitimate CPython iteration order of
`waf_urls & db_urls`: an enumeration, without repetition, of exactly the
intersection of the crawl set with the known set. -/
def IterEnum (db : DB) (waf : List String) (iter : List String) : Prop :=
  iter.Nodup ∧ iter.toFinset = waf.toFinset ∩ dbUrls db

/-- The row inserted for a newly added URL
(`INSERT OR IGNORE INTO etags (url, etag, last_checked, deleted) VALUES (?, NULL, NULL, 0)`). -/
def newRow : EtagRow := ⟨none, none, false⟩

/-- `INSERT OR IGNORE`: insert the fresh row unless the key exists. -/
def insertOrIgnore (db : DB) (u : String) : DB :=
  if (db.map Prod.fst).contains u then db else db ++ [(u, newRow)]

/-- Overwrite the `deleted` flag of a row. -/
def markRow (b : Bool) (r : EtagRow) : EtagRow :=
  { r with deleted := b }

/-- `UPDATE etags SET deleted=? WHERE url=?` — touches every row whose
key is `u` (exactly one, by the primary key). -/
def setDeleted (db : DB) (u : String) (b : Bool) : DB :=
  db.map (fun p => if p.1 = u then (p.1, markRow b p.2) else p)

/-- The store mutation performed by `update_database_from_waf`
(lines 154-171): insert the added URLs, flip `deleted` to 0 for the
reactivated URLs (condition read from the pre-update snapshot
`db_records`), flip `deleted` to 1 for the URLs missing from the crawl. -/
def applySync (db : DB) (waf : List String) (iter : List String) : DB :=
  let db1 := (addedOf db waf).foldl insertOrIgnore db
  let db2 := List.foldl (fun d u => setDeleted d u false) db1
    (iter.filter (fun u => dbDeleted db u))
  List.foldl (fun d u => setDeleted d u true) db2 (deactivatedOf db waf)

/-! ### Metadata extraction and the conditional fetch engine
(`noaa_collection_scraper/metadata_scraper.py`) -/

/-- The fields `extract_metadata` pulls from a parsed XML tree, each
independently optional (absent xpath match = `none`). -/
structure XmlFields where
  uuid : Option String
  fileIdentifier : Option String
  title : Option String
  edition : Option String
  doi : Option String
  dateStamp : Option String
deriving DecidableEq

/-- One extracted-metadata dict (`extract_metadata`'s return value).
`none` in a field means the dict key is absent: on a parse failure the
dict holds only `source` and `error`; on success it holds `source` and
the six fields, and no `error` key. -/
structure MetaRecord where
  source : String
  uuid : Option String
  fileIdentifier : Option String
  title : Option String
  edition : Option String
  doi : Option String
  dateStamp : Option String
  error : Option String
deriving DecidableEq

/-- `metadata_scraper.extract_metadata` (lines 51-77).  The XML parsing
plus xpath evaluation (`etree.fromstring` and the `text` helper) is the
abstract parameter `parse`: `.error e` embeds `etree.fromstring`
raising with message `e`, `.ok f` a successful parse whose xpath
queries yield the fields `f`. -/
def extract_metadata (parse : String → Except String XmlFields)
    (xmlBody : String) (url : String) : MetaRecord :=
  match parse xmlBody with
  | .error e =>
      { source := url, uuid := none, fileIdentifier := none, title := none,
        edition := none, doi := none, dateStamp := none,
        error := some ("Invalid XML: " ++ e) }
  | .ok f =>
      { source := url, uuid := f.uuid, fileIdentifier := f.fileIdentifier,
        title := f.title, edition := f.edition, doi := f.doi,
        dateStamp := f.dateStamp, error := none }

/-- The outcome of one transport attempt inside `fetch_conditional`:
either `session.get` (or the body read) raises, or a response arrives
with a status, an optional `ETag` header and a body. -/
inductive Attempt where
  | raise (msg : String)
  | resp (status : Nat) (etagHeader : Option String) (body : String)

/-- The result dict of `fetch_conditional`.  `none` = key absent:
the 304 branch sets `changed`/`first_check`; the `>= 400` branch sets
`changed`/`error`; the 200 branch sets `changed`/`metadata`; the
retry-exhausted fallthrough sets only `error` (no `changed` key). -/
structure FetchResult where
  url : String
  etag : Option String
  changed : Option Bool
  firstCheck : Option Bool
  error : Option String
  metadata : Option MetaRecord
deriving DecidableEq

/-- Python `str.strip(chr)` for `chr = '"'`: remove every leading and
trailing double-quote character (`fetch_conditional`, line 118). -/
def stripQuotes (s : String) : String :=
  let l := s.toList.dropWhile (· = '"')
  String.mk (l.reverse.dropWhile (· = '"')).reverse

/-- Classification of a received response inside `fetch_conditional`
(lines 110-121): 304 → unchanged; status ≥ 400 → rejected (prior etag
kept, error recorded, no retry); otherwise → changed, with the `ETag`
response header (stripped of quotes unless falsy) as the new indicator
and the body run through `extract_metadata`. -/
def classifyResp (parse : String → Except String XmlFields)
    (url : String) (etag0 : Option String) (fc : Bool)
    (status : Nat) (etagHeader : Option String) (body : String) : FetchResult :=
  if status = 304 then
    { url := url, etag := etag0, changed := some false, firstCheck := some fc,
      error := none, metadata := none }
  else if 400 ≤ status then
    { url := url, etag := etag0, changed := some false, firstCheck := none,
      error := some ("HTTP " ++ toString status), metadata := none }
  else
    let newEtag : Option String :=
      match etagHeader with
      | none => none
      | some s => if s = "" then some s else some (stripQuotes s)
    { url := url, etag := newEtag, changed := some true, firstCheck := none,
      error := none, metadata := some (extract_metadata parse body url) }

/-- The result dict returned after the retry loop exhausts its budget
(`fetch_conditional`, line 125): only `url`, the prior `etag`, and
`error`; no `changed` key. -/
def failResult (url : String) (etag0 : Option String) : FetchResult :=
  { url := url, etag := etag0, changed := none, firstCheck := none,
    error := some "Failed after retries", metadata := none }

/-- The retry loop of `fetch_conditional` (lines 107-125):
`for attempt in range(1, RETRIES + 1)`.  `script i` is the outcome of
the `i`-th transport attempt (0-based); a raised exception consumes one
attempt and continues; a response terminates the loop via
`classifyResp`.  Returns the result together with the number of
transport attempts issued. -/
def fetchFrom (parse : String → Except String XmlFields)
    (url : String) (etag0 : Option String) (fc : Bool)
    (script : Nat → Attempt) (i : Nat) : Nat → FetchResult × Nat
  | 0 => (failResult url etag0, 0)
  | n + 1 =>
      match script i with
      | .resp st eh b => (classifyResp parse url etag0 fc st eh b, 1)
      | .raise _ =>
          let r := fetchFrom parse url etag0 fc script (i + 1) n
          (r.1, r.2 + 1)

/-- `Config.RETRIES` (`config.py`, line 33). -/
def RETRIES : Nat := 4

/-- `metadata_scraper.fetch_conditional` (lines 100-125), as a function
of the transport script.  `first_check = etag is None` (line 102). -/
def fetch_conditional (parse : String → Except String XmlFields)
    (url : String) (etag0 : Option String) (script : Nat → Attempt) :
    FetchResult × Nat :=
  fetchFrom parse url etag0 etag0.isNone script 0 RETRIES

/-- The `If-None-Match` request header built at lines 103-104:
present only when the stored etag is truthy (neither `None` nor `""`),
and then wrapped in double quotes. -/
def ifNoneMatchHeader (etag : Option String) : Option String :=
  match etag with
  | none => none
  | some e => if e = "" then none else some ("\"" ++ e ++ "\"")

/-- `metadata_scraper.load_active_etags` (lines 80-86):
`SELECT url, etag FROM etags WHERE deleted=0`. -/
def load_active_etags (db : DB) : List (String × Option String) :=
  (db.filter (fun p => !p.2.deleted)).map (fun p => (p.1, p.2.etag))

/-- `metadata_scraper.update_etag_record` (lines 88-97):
`UPDATE etags SET etag=?, last_checked=? WHERE url=?` with
`last_checked = now`. -/
def update_etag_record (db : DB) (url : String) (etag : Option String)
    (now : String) : DB :=
  db.map (fun p =>
    if p.1 = url then (p.1, { p.2 with etag := etag, lastChecked := some now })
    else p)

/-- `changed = [r for r in results if r.get("changed")]`
(`metadata_scraper.main`, line 179): the `changed` key is present and
truthy. -/
def changedResults (rs : List FetchResult) : List FetchResult :=
  rs.filter (fun r => r.changed = some true)

/-- `unchanged = [r for r in results if r.get("changed") is False]`
(line 180): the `changed` key is present with value exactly `False` —
this includes the rejected (HTTP ≥ 400) results. -/
def unchangedResults (rs : List FetchResult) : List FetchResult :=
  rs.filter (fun r => r.changed = some false)

/-- The store updates issued by `main` (lines 183-184):
`for r in changed + unchanged: update_etag_record(r["url"], r.get("etag"))`. -/
def mainUpdates (rs : List FetchResult) : List (String × Option String) :=
  (changedResults rs ++ unchangedResults rs).map (fun r => (r.url, r.etag))

/-- Applying those updates to the store, with an explicit shared
timestamp `now` for `datetime.now().isoformat()`. -/
def applyUpdates (db : DB) (now : String)
    (ups : List (String × Option String)) : DB :=
  ups.foldl (fun d p => update_etag_record d p.1 p.2 now) db

/-- `new_records = [r["metadata"] for r in changed if "metadata" in r]`
(`main`, line 192). -/
def newRecordsOf (rs : List FetchResult) : List MetaRecord :=
  (changedResults rs).filterMap (fun r => r.metadata)

/-- Pandas `drop_duplicates(subset=["source"], keep="last")`: keep a
row exactly when no later row carries the same `source`, preserving
order of the kept rows. -/
def dropDupLast : List MetaRecord → List MetaRecord
  | [] => []
  | r :: rest =>
      if rest.any (fun s => s.source == r.source) then dropDupLast rest
      else r :: dropDupLast rest

/-- The merge step of `metadata_scraper.main` (lines 195-199) when the
parquet file exists: concatenate existing table and new records, then
deduplicate by `source` keeping the last occurrence. -/
def mergeTables (existing newRecs : List MetaRecord) : List MetaRecord :=
  dropDupLast (existing ++ newRecs)

/-! ### The crawler's `/iso/` → `/iso/xml/` rewrite
(`noaa_collection_scraper/url_scraper.py`, `worker`, lines 103-107) -/

/-- Substring containment: does `pat` occur contiguously in `l`? -/
def containsSub (pat : List Char) : List Char → Bool
  | [] => pat.isEmpty
  | c :: rest => pat.isPrefixOf (c :: rest) || containsSub pat rest

/-- Python's `pat in s` on strings. -/
def strContains (s pat : String) : Bool :=
  containsSub pat.toList s.toList

/-- Python's `str.lower()` (character-wise lowering; the URLs involved
are ASCII). -/
def lowerStr (s : String) : String :=
  String.mk (s.toList.map Char.toLower)

/-- Python's `str.endswith(suffix)`. -/
def endsWithStr (s suffix : String) : Bool :=
  suffix.toList.isSuffixOf s.toList

/-- The rewrite applied by `worker` to each dequeued URL:
`if "iso/" in url and not url.lower().endswith((".xml", "/xml/")):` —
ensure a trailing slash, then `urljoin(url, "xml/")`, which for an
absolute URL whose path ends in `/` (and carries no query or fragment,
as the crawler's directory URLs do) appends `xml/`. -/
def rewriteIso (url : String) : String :=
  if strContains url "iso/"
      && !(endsWithStr (lowerStr url) ".xml" || endsWithStr (lowerStr url) "/xml/") then
    (if endsWithStr url "/" then url else url ++ "/") ++ "xml/"
  else url

/-! ### The phase orchestrator (`pipeline_runner.py`) -/

/-- `pipeline_runner.STEPS` (lines 34-39): crawl, fetch, enrichment,
retention cleanup, in that order. -/
def STEPS : List String := ["url_scraper", "metadata_scraper", "osim_meta", "cleanup_artifacts"]

/-- The loop of `pipeline_runner.main` (lines 114-118): every step is
run unconditionally (`rc` gives each step's exit code); a nonzero code
appends the step to `failures` and the loop continues.  Returns the
list of steps actually run and the accumulated failures, in order. -/
def pipelineLoop (rc : String → Int) : List String → List String × List String
  | [] => ([], [])
  | s :: rest =>
      let r := rc s
      let rec' := pipelineLoop rc rest
      (s :: rec'.1, if r ≠ 0 then s :: rec'.2 else rec'.2)

/-- The orchestrator's own exit status (lines 135-139):
`sys.exit(1)` when `failures` is nonempty, implicit 0 otherwise. -/
def pipelineExit (rc : String → Int) : Nat :=
  if (pipelineLoop rc STEPS).2 = [] then 0 else 1

/-! ## Supporting lemmas -/

theorem mem_addedOf {db : DB} {waf : List String} {u : String} :
    u ∈ addedOf db waf ↔ u ∈ waf ∧ u ∉ db.map Prod.fst := by
  unfold addedOf
  rw [(List.perm_insertionSort _ _).mem_iff, List.mem_filter, List.mem_dedup]
  simp

theorem mem_deactivatedOf {db : DB} {waf : List String} {u : String} :
    u ∈ deactivatedOf db waf ↔ u ∈ db.map Prod.fst ∧ u ∉ waf := by
  unfold deactivatedOf
  rw [(List.perm_insertionSort _ _).mem_iff, List.mem_filter, List.mem_dedup]
  simp

theorem nodup_addedOf (db : DB) (waf : List String) : (addedOf db waf).Nodup :=
  (List.perm_insertionSort _ _).nodup_iff.mpr
    (List.Nodup.filter _ (List.nodup_dedup _))

theorem nodup_deactivatedOf (db : DB) (waf : List String) :
    (deactivatedOf db waf).Nodup :=
  (List.perm_insertionSort _ _).nodup_iff.mpr
    (List.Nodup.filter _ (List.nodup_dedup _))

theorem toFinset_addedOf (db : DB) (waf : List String) :
    (addedOf db waf).toFinset = waf.toFinset \ dbUrls db := by
  ext u
  simp only [List.mem_toFinset, mem_addedOf, Finset.mem_sdiff]
  rw [dbUrls, List.mem_toFinset]

theorem toFinset_deactivatedOf (db : DB) (waf : List String) :
    (deactivatedOf db waf).toFinset = dbUrls db \ waf.toFinset := by
  ext u
  simp only [List.mem_toFinset, mem_deactivatedOf, Finset.mem_sdiff]
  rw [dbUrls, List.mem_toFinset]

theorem lookup_cons_pair {β : Type} (x : String) (r : β)
    (rest : List (String × β)) (u : String) :
    ((x, r) :: rest).lookup u = if x = u then some r else rest.lookup u := by
  by_cases h : x = u
  · subst h
    simp [List.lookup]
  · have hne : (u == x) = false := beq_eq_false_iff_ne.mpr (Ne.symm h)
    simp [List.lookup, hne, h]

theorem lookup_eq_none_iff (db : DB) (u : String) :
    db.lookup u = none ↔ u ∉ db.map Prod.fst := by
  induction db with
  | nil => simp
  | cons p rest ih =>
      obtain ⟨x, r⟩ := p
      rw [lookup_cons_pair]
      by_cases h : x = u
      · subst h
        simp
      · simp [h, ih, Ne.symm h]

theorem mem_keys_of_lookup {db : DB} {u : String} {r : EtagRow}
    (h : db.lookup u = some r) : u ∈ db.map Prod.fst := by
  by_contra hc
  rw [← lookup_eq_none_iff] at hc
  rw [h] at hc
  exact Option.noConfusion hc

theorem lookup_append_db (l₁ l₂ : DB) (u : String) :
    (l₁ ++ l₂).lookup u
      = ((l₁.lookup u).orElse (fun _ => l₂.lookup u)) := by
  induction l₁ with
  | nil => simp [List.lookup, Option.orElse]
  | cons p rest ih =>
      obtain ⟨x, r⟩ := p
      rw [List.cons_append, lookup_cons_pair, lookup_cons_pair]
      by_cases h : x = u
      · simp [h, Option.orElse]
      · simp [h, ih]

theorem lookup_map_newRow (us : List String) (u : String) :
    (us.map (fun v => (v, newRow))).lookup u
      = if u ∈ us then some newRow else none := by
  induction us with
  | nil => simp
  | cons v us ih =>
      rw [List.map_cons, lookup_cons_pair]
      by_cases h : v = u
      · simp [h]
      · simp [h, ih, Ne.symm h]

theorem lookup_setDeleted (db : DB) (a : String) (b : Bool) (u : String) :
    (setDeleted db a b).lookup u
      = (db.lookup u).map (fun r => if u = a then markRow b r else r) := by
  induction db with
  | nil => rfl
  | cons p rest ih =>
      obtain ⟨x, r⟩ := p
      have hsd : setDeleted ((x, r) :: rest) a b
          = (if x = a then (x, markRow b r) else (x, r)) :: setDeleted rest a b := by
        simp only [setDeleted, List.map_cons]
      rw [hsd, lookup_cons_pair]
      by_cases hxa : x = a
      · rw [if_pos hxa]
        rw [lookup_cons_pair]
        by_cases hxu : x = u
        · have hua : u = a := hxu ▸ hxa
          simp [hxu, hua]
        · simp [hxu, ih]
      · rw [if_neg hxa]
        rw [lookup_cons_pair]
        by_cases hxu : x = u
        · have hua : ¬ u = a := fun hc => hxa (hxu.trans hc)
          simp [hxu, hua]
        · simp [hxu, ih]

theorem lookup_foldl_setDeleted (b : Bool) (L : List String) (db : DB) (u : String) :
    (List.foldl (fun d v => setDeleted d v b) db L).lookup u
      = (db.lookup u).map (fun r => if u ∈ L then markRow b r else r) := by
  induction L generalizing db with
  | nil =>
      cases h : db.lookup u <;> simp [h]
  | cons a L ih =>
      rw [List.foldl_cons, ih, lookup_setDeleted]
      cases h : db.lookup u with
      | none => simp
      | some r =>
          by_cases hua : u = a <;> by_cases huL : u ∈ L <;>
            simp [hua, huL, markRow]

theorem keys_setDeleted (db : DB) (a : String) (b : Bool) :
    (setDeleted db a b).map Prod.fst = db.map Prod.fst := by
  induction db with
  | nil => rfl
  | cons p rest ih =>
      have hsd : setDeleted (p :: rest) a b
          = (if p.1 = a then (p.1, markRow b p.2) else p) :: setDeleted rest a b := by
        simp only [setDeleted, List.map_cons]
      rw [hsd, List.map_cons, List.map_cons, ih]
      by_cases h : p.1 = a <;> simp [h]

theorem keys_foldl_setDeleted (b : Bool) (L : List String) (db : DB) :
    (List.foldl (fun d v => setDeleted d v b) db L).map Prod.fst
      = db.map Prod.fst := by
  induction L generalizing db with
  | nil => rfl
  | cons a L ih => rw [List.foldl_cons, ih, keys_setDeleted]

theorem foldl_insertOrIgnore_eq (us : List String) (db : DB)
    (hn : us.Nodup) (hd : ∀ v ∈ us, v ∉ db.map Prod.fst) :
    us.foldl insertOrIgnore db = db ++ us.map (fun v => (v, newRow)) := by
  induction us generalizing db with
  | nil => simp
  | cons v us ih =>
      have hv : v ∉ db.map Prod.fst := hd v (by simp)
      have hv' : ∀ x : EtagRow, (v, x) ∉ db := by
        intro x hx
        exact hv (List.mem_map.mpr ⟨(v, x), hx, rfl⟩)
      have h1 : insertOrIgnore db v = db ++ [(v, newRow)] := by
        simp [insertOrIgnore, hv']
      have hd' : ∀ w ∈ us, w ∉ (db ++ [(v, newRow)]).map Prod.fst := by
        intro w hw hmem
        rw [List.map_append] at hmem
        rcases List.mem_append.mp hmem with hmem | hmem
        · exact hd w (List.mem_cons_of_mem _ hw) hmem
        · simp only [List.map_cons, List.map_nil, List.mem_singleton] at hmem
          exact (List.nodup_cons.mp hn).1 (hmem ▸ hw)
      rw [List.foldl_cons, h1, ih (db ++ [(v, newRow)]) hn.of_cons hd',
        List.map_cons, List.append_assoc, List.singleton_append]

theorem dbUrls_applySync (db : DB) (waf iter : List String) :
    dbUrls (applySync db waf iter) = dbUrls db ∪ waf.toFinset := by
  have hn : (addedOf db waf).Nodup := nodup_addedOf db waf
  have hd : ∀ v ∈ addedOf db waf, v ∉ db.map Prod.fst := fun v hv =>
    (mem_addedOf.mp hv).2
  unfold applySync
  rw [dbUrls, keys_foldl_setDeleted, keys_foldl_setDeleted,
    foldl_insertOrIgnore_eq _ _ hn hd]
  rw [List.map_append, List.toFinset_append]
  have hmap : (List.map (fun v => (v, newRow)) (addedOf db waf)).map Prod.fst
      = addedOf db waf := by
    rw [List.map_map]
    exact List.map_id'' (fun x => rfl) _
  rw [hmap, toFinset_addedOf, dbUrls]
  exact Finset.union_sdiff_self_eq_union

theorem dbDeleted_applySync_of_mem_waf (db : DB) (waf iter : List String)
    (h : IterEnum db waf iter) {u : String} (hu : u ∈ waf) :
    dbDeleted (applySync db waf iter) u = false := by
  obtain ⟨-, hset⟩ := h
  have huC : u ∈ waf.toFinset := List.mem_toFinset.mpr hu
  have hndact : u ∉ deactivatedOf db waf := fun hmem =>
    (mem_deactivatedOf.mp hmem).2 hu
  have hn : (addedOf db waf).Nodup := nodup_addedOf db waf
  have hd : ∀ v ∈ addedOf db waf, v ∉ db.map Prod.fst := fun v hv =>
    (mem_addedOf.mp hv).2
  unfold applySync
  rw [dbDeleted, lookup_foldl_setDeleted, lookup_foldl_setDeleted,
    foldl_insertOrIgnore_eq _ _ hn hd, lookup_append_db]
  by_cases hRL : u ∈ iter.filter (fun v => dbDeleted db v)
  · cases hlook : ((db.lookup u).orElse
        fun _ => ((addedOf db waf).map fun v => (v, newRow)).lookup u) with
    | none => simp [hlook, hndact]
    | some r => simp [hlook, hRL, hndact, markRow]
  · cases hlk : db.lookup u with
    | some r =>
        have hrdel : r.deleted = false := by
          by_contra hcon
          have hrd : r.deleted = true := by
            cases hb : r.deleted
            · exact absurd hb hcon
            · rfl
          have hKu : u ∈ dbUrls db := by
            simpa [dbUrls, List.mem_toFinset] using mem_keys_of_lookup hlk
          have hiter : u ∈ iter := by
            rw [← List.mem_toFinset, hset]
            exact Finset.mem_inter.mpr ⟨huC, hKu⟩
          have hmemf : u ∈ iter.filter (fun v => dbDeleted db v) := by
            rw [List.mem_filter]
            exact ⟨hiter, by simp [dbDeleted, hlk, hrd]⟩
          exact hRL hmemf
        simp [hlk, Option.orElse, hndact, hRL, hrdel]
    | none =>
        have hnk : u ∉ db.map Prod.fst := (lookup_eq_none_iff db u).mp hlk
        have hadded : u ∈ addedOf db waf := mem_addedOf.mpr ⟨hu, hnk⟩
        rw [lookup_map_newRow]
        simp [hlk, Option.orElse, hadded, hndact, hRL, newRow]

theorem mem_dropDupLast {l : List MetaRecord} {x : MetaRecord}
    (h : x ∈ dropDupLast l) : x ∈ l := by
  induction l with
  | nil => simp [dropDupLast] at h
  | cons r rest ih =>
      by_cases hany : rest.any (fun s => s.source == r.source)
      · rw [dropDupLast, if_pos hany] at h
        exact List.mem_cons_of_mem _ (ih h)
      · rw [dropDupLast, if_neg hany] at h
        rcases List.mem_cons.mp h with h | h
        · exact h ▸ List.mem_cons_self _ _
        · exact List.mem_cons_of_mem _ (ih h)

theorem dropDupLast_sources_nodup (l : List MetaRecord) :
    ((dropDupLast l).map (fun r => r.source)).Nodup := by
  induction l with
  | nil => simp [dropDupLast]
  | cons r rest ih =>
      by_cases hany : rest.any (fun s => s.source == r.source)
      · rw [dropDupLast, if_pos hany]
        exact ih
      · rw [dropDupLast, if_neg hany]
        rw [List.map_cons, List.nodup_cons]
        refine ⟨?_, ih⟩
        intro hmem
        obtain ⟨y, hy, hsy⟩ := List.mem_map.mp hmem
        have hyrest : y ∈ rest := mem_dropDupLast hy
        have hone : rest.any (fun s => s.source == r.source) := by
          rw [List.any_eq_true]
          exact ⟨y, hyrest, by simp [hsy]⟩
        exact hany hone

theorem find?_cons_eq {α : Type} (p : α → Bool) (a : α) (l : List α) :
    (a :: l).find? p = if p a then some a else l.find? p := by
  cases h : p a
  · simp [List.find?, h]
  · simp [List.find?, h]

theorem find?_dropDupLast (l : List MetaRecord) (k : String) :
    (dropDupLast l).find? (fun r => r.source == k)
      = l.reverse.find? (fun r => r.source == k) := by
  induction l with
  | nil => rfl
  | cons r rest ih =>
      rw [List.reverse_cons, List.find?_append]
      by_cases hany : rest.any (fun s => s.source == r.source)
      · rw [dropDupLast, if_pos hany, ih]
        by_cases hk : r.source = k
        · have hsome : (rest.reverse.find? (fun s => s.source == k)).isSome := by
            rw [List.find?_isSome]
            obtain ⟨y, hy, hys⟩ := List.any_eq_true.mp hany
            refine ⟨y, List.mem_reverse.mpr hy, ?_⟩
            simp only [beq_iff_eq] at hys ⊢
            rw [hys, hk]
          obtain ⟨z, hz⟩ := Option.isSome_iff_exists.mp hsome
          rw [hz]
          rfl
        · have hne : (r.source == k) = false := beq_eq_false_iff_ne.mpr hk
          rw [find?_cons_eq, if_neg (by simp [hne]), List.find?_nil,
            Option.or_none]
      · rw [dropDupLast, if_neg hany]
        by_cases hk : r.source = k
        · have hnone : rest.reverse.find? (fun s => s.source == k) = none := by
            rw [List.find?_eq_none]
            intro y hy
            have hyrest : y ∈ rest := List.mem_reverse.mp hy
            intro hys
            have hone : rest.any (fun s => s.source == r.source) := by
              rw [List.any_eq_true]
              refine ⟨y, hyrest, ?_⟩
              simp only [beq_iff_eq] at hys ⊢
              rw [hys, hk]
            exact hany hone
          have heq : (r.source == k) = true := beq_iff_eq.mpr hk
          rw [find?_cons_eq, if_pos heq, hnone, Option.none_or,
            find?_cons_eq, if_pos heq]
        · have hne : (r.source == k) = false := beq_eq_false_iff_ne.mpr hk
          rw [find?_cons_eq, if_neg (by simp [hne]), ih,
            find?_cons_eq, if_neg (by simp [hne]),
            List.find?_nil, Option.or_none]

theorem fetchFrom_resp (parse : String → Except String XmlFields)
    (url : String) (etag0 : Option String) (fc : Bool) (script : Nat → Attempt)
    (i st : Nat) (eh : Option String) (b : String) (n : Nat)
    (hs : script i = Attempt.resp st eh b) :
    fetchFrom parse url etag0 fc script i (n + 1)
      = (classifyResp parse url etag0 fc st eh b, 1) := by
  simp only [fetchFrom, hs]

theorem fetch_conditional_resp (parse : String → Except String XmlFields)
    (url : String) (etag0 : Option String) (script : Nat → Attempt)
    (st : Nat) (eh : Option String) (b : String)
    (hs : script 0 = Attempt.resp st eh b) :
    fetch_conditional parse url etag0 script
      = (classifyResp parse url etag0 etag0.isNone st eh b, 1) := by
  have h4 : RETRIES = 3 + 1 := rfl
  rw [fetch_conditional, h4]
  exact fetchFrom_resp parse url etag0 etag0.isNone script 0 st eh b 3 hs

theorem classifyResp_rejected (parse : String → Except String XmlFields)
    (url : String) (etag0 : Option String) (fc : Bool) (st : Nat)
    (eh : Option String) (b : String) (hst : 400 ≤ st) :
    classifyResp parse url etag0 fc st eh b
      = { url := url, etag := etag0, changed := some false, firstCheck := none,
          error := some ("HTTP " ++ toString st), metadata := none } := by
  have h304 : ¬ (st = 304) := by omega
  rw [classifyResp.eq_def, if_neg h304, if_pos hst]

theorem classifyResp_changed (parse : String → Except String XmlFields)
    (url : String) (etag0 : Option String) (fc : Bool) (st : Nat)
    (eh : Option String) (b : String) (h304 : st ≠ 304) (hlt : st < 400) :
    classifyResp parse url etag0 fc st eh b
      = { url := url,
          etag := match eh with
            | none => none
            | some s => if s = "" then some s else some (stripQuotes s),
          changed := some true, firstCheck := none, error := none,
          metadata := some (extract_metadata parse b url) } := by
  rw [classifyResp.eq_def, if_neg h304, if_neg (by omega)]

theorem fetchFrom_all_raise (parse : String → Except String XmlFields)
    (url : String) (etag0 : Option String) (fc : Bool) (script : Nat → Attempt) :
    ∀ (n i : Nat), (∀ j, j < n → ∃ m, script (i + j) = Attempt.raise m) →
      fetchFrom parse url etag0 fc script i n = (failResult url etag0, n) := by
  intro n
  induction n with
  | zero => intro i _; rfl
  | succ n ih =>
      intro i h
      obtain ⟨m, hm⟩ := h 0 (Nat.succ_pos n)
      rw [Nat.add_zero] at hm
      have hrec : fetchFrom parse url etag0 fc script (i + 1) n
          = (failResult url etag0, n) := by
        refine ih (i + 1) ?_
        intro j hj
        obtain ⟨m', hm'⟩ := h (j + 1) (by omega)
        refine ⟨m', ?_⟩
        have hidx : i + 1 + j = i + (j + 1) := by omega
        rw [hidx]
        exact hm'
      simp only [fetchFrom, hm, hrec]

theorem fetch_conditional_all_raise (parse : String → Except String XmlFields)
    (url : String) (etag0 : Option String) (script : Nat → Attempt)
    (h : ∀ j, j < RETRIES → ∃ m, script j = Attempt.raise m) :
    fetch_conditional parse url etag0 script
      = (failResult url etag0, RETRIES) := by
  rw [fetch_conditional]
  refine fetchFrom_all_raise parse url etag0 etag0.isNone script RETRIES 0 ?_
  intro j hj
  rw [Nat.zero_add]
  exact h j hj

theorem lookup_load_active_mem {db : DB} {u : String} {e' : Option String}
    (h : (load_active_etags db).lookup u = some e') :
    ∃ r : EtagRow, (u, r) ∈ db ∧ r.deleted = false ∧ r.etag = e' := by
  induction db with
  | nil => exact absurd h (by simp [load_active_etags])
  | cons p rest ih =>
      cases hb : p.2.deleted
      · have hstep : load_active_etags (p :: rest)
            = (p.1, p.2.etag) :: load_active_etags rest := by
          simp [load_active_etags, List.filter_cons, hb]
        rw [hstep, lookup_cons_pair] at h
        by_cases hpu : p.1 = u
        · rw [if_pos hpu] at h
          refine ⟨p.2, ?_, hb, Option.some.inj h⟩
          rw [← hpu]
          exact List.mem_cons_self _ _
        · rw [if_neg hpu] at h
          obtain ⟨r, hr, hrd, hre⟩ := ih h
          exact ⟨r, List.mem_cons_of_mem _ hr, hrd, hre⟩
      · have hstep : load_active_etags (p :: rest) = load_active_etags rest := by
          simp [load_active_etags, List.filter_cons, hb]
        rw [hstep] at h
        obtain ⟨r, hr, hrd, hre⟩ := ih h
        exact ⟨r, List.mem_cons_of_mem _ hr, hrd, hre⟩

theorem etag_none_of_mem_mapped {db : DB} {url now : String} {r : EtagRow}
    (h : (url, r) ∈ db.map (fun p =>
      if p.1 = url then (p.1, { p.2 with etag := none, lastChecked := some now })
      else p)) :
    r.etag = none := by
  obtain ⟨q, hq, heq⟩ := List.mem_map.mp h
  by_cases hcase : q.1 = url
  · rw [if_pos hcase] at heq
    have h2 : ({ q.2 with etag := none, lastChecked := some now } : EtagRow) = r :=
      congrArg Prod.snd heq
    rw [← h2]
  · rw [if_neg hcase] at heq
    exact absurd (congrArg Prod.fst heq) hcase

/-! ## Claim theorems -/

/-- C1: for every known-set `K = dbUrls db` and crawl-set
`C = waf.toFinset`, the reconciler computes `added = C \ K`,
`deactivated = K \ C`, and `reactivated` as the subset of `C ∩ K` whose
rows are currently inactive; the three parts are pairwise disjoint and
`added ∪ (K ∩ C) ∪ deactivated = K ∪ C`. -/
theorem reconcile_setdiff_complete (db : DB) (waf iter : List String)
    (h : IterEnum db waf iter) :
    (addedOf db waf).toFinset = waf.toFinset \ dbUrls db ∧
    (deactivatedOf db waf).toFinset = dbUrls db \ waf.toFinset ∧
    (reactivatedOf db iter).toFinset
      = (waf.toFinset ∩ dbUrls db).filter (fun u => dbDeleted db u = true) ∧
    Disjoint (addedOf db waf).toFinset (reactivatedOf db iter).toFinset ∧
    Disjoint (addedOf db waf).toFinset (deactivatedOf db waf).toFinset ∧
    Disjoint (reactivatedOf db iter).toFinset (deactivatedOf db waf).toFinset ∧
    (addedOf db waf).toFinset ∪ (dbUrls db ∩ waf.toFinset)
        ∪ (deactivatedOf db waf).toFinset
      = dbUrls db ∪ waf.toFinset := by
  obtain ⟨-, hset⟩ := h
  have hmem : ∀ u, u ∈ iter ↔ u ∈ waf.toFinset ∩ dbUrls db := by
    intro u
    rw [← List.mem_toFinset, hset]
  have hadd : (addedOf db waf).toFinset = waf.toFinset \ dbUrls db :=
    toFinset_addedOf db waf
  have hdel : (deactivatedOf db waf).toFinset = dbUrls db \ waf.toFinset :=
    toFinset_deactivatedOf db waf
  have hre : (reactivatedOf db iter).toFinset
      = (waf.toFinset ∩ dbUrls db).filter (fun u => dbDeleted db u = true) := by
    ext u
    simp only [reactivatedOf, List.mem_toFinset, List.mem_filter,
      Finset.mem_filter]
    constructor
    · rintro ⟨hi, hd⟩
      exact ⟨(hmem u).1 hi, hd⟩
    · rintro ⟨hi, hd⟩
      exact ⟨(hmem u).2 hi, hd⟩
  refine ⟨hadd, hdel, hre, ?_, ?_, ?_, ?_⟩
  · rw [hadd, hre, Finset.disjoint_left]
    intro a ha hb
    simp only [Finset.mem_sdiff] at ha
    simp only [Finset.mem_filter, Finset.mem_inter] at hb
    exact ha.2 hb.1.2
  · rw [hadd, hdel, Finset.disjoint_left]
    intro a ha hb
    simp only [Finset.mem_sdiff] at ha hb
    exact hb.2 ha.1
  · rw [hre, hdel, Finset.disjoint_left]
    intro a ha hb
    simp only [Finset.mem_filter, Finset.mem_inter] at ha
    simp only [Finset.mem_sdiff] at hb
    exact hb.2 ha.1.1
  · rw [hadd, hdel]
    ext a
    simp only [Finset.mem_union, Finset.mem_sdiff, Finset.mem_inter]
    tauto

/-- Witness for C1 at a concrete store and crawl:
store `{a: active, b: inactive}`, crawl `{b, c}`, intersection
iteration order `[b]`. -/
theorem reconcile_setdiff_complete_witness :
    (addedOf [("a", ⟨none, none, false⟩), ("b", ⟨some "x", none, true⟩)]
        ["b", "c"]).toFinset
      = (["b", "c"] : List String).toFinset
          \ dbUrls [("a", ⟨none, none, false⟩), ("b", ⟨some "x", none, true⟩)] ∧
    (deactivatedOf [("a", ⟨none, none, false⟩), ("b", ⟨some "x", none, true⟩)]
        ["b", "c"]).toFinset
      = dbUrls [("a", ⟨none, none, false⟩), ("b", ⟨some "x", none, true⟩)]
          \ (["b", "c"] : List String).toFinset ∧
    (reactivatedOf [("a", ⟨none, none, false⟩), ("b", ⟨some "x", none, true⟩)]
        ["b"]).toFinset
      = ((["b", "c"] : List String).toFinset
          ∩ dbUrls [("a", ⟨none, none, false⟩), ("b", ⟨some "x", none, true⟩)]).filter
            (fun u => dbDeleted
              [("a", ⟨none, none, false⟩), ("b", ⟨some "x", none, true⟩)] u = true) ∧
    Disjoint
      (addedOf [("a", ⟨none, none, false⟩), ("b", ⟨some "x", none, true⟩)]
        ["b", "c"]).toFinset
      (reactivatedOf [("a", ⟨none, none, false⟩), ("b", ⟨some "x", none, true⟩)]
        ["b"]).toFinset ∧
    Disjoint
      (addedOf [("a", ⟨none, none, false⟩), ("b", ⟨some "x", none, true⟩)]
        ["b", "c"]).toFinset
      (deactivatedOf [("a", ⟨none, none, false⟩), ("b", ⟨some "x", none, true⟩)]
        ["b", "c"]).toFinset ∧
    Disjoint
      (reactivatedOf [("a", ⟨none, none, false⟩), ("b", ⟨some "x", none, true⟩)]
        ["b"]).toFinset
      (deactivatedOf [("a", ⟨none, none, false⟩), ("b", ⟨some "x", none, true⟩)]
        ["b", "c"]).toFinset ∧
    (addedOf [("a", ⟨none, none, false⟩), ("b", ⟨some "x", none, true⟩)]
        ["b", "c"]).toFinset
        ∪ (dbUrls [("a", ⟨none, none, false⟩), ("b", ⟨some "x", none, true⟩)]
            ∩ (["b", "c"] : List String).toFinset)
        ∪ (deactivatedOf [("a", ⟨none, none, false⟩), ("b", ⟨some "x", none, true⟩)]
            ["b", "c"]).toFinset
      = dbUrls [("a", ⟨none, none, false⟩), ("b", ⟨some "x", none, true⟩)]
          ∪ (["b", "c"] : List String).toFinset :=
  reconcile_setdiff_complete
    [("a", ⟨none, none, false⟩), ("b", ⟨some "x", none, true⟩)]
    ["b", "c"] ["b"] ⟨by decide, by decide⟩

/-- C2, counterexample.  The claim says a second reconcile run with the
same crawl result yields an *empty* deactivated list.  Concretely:
store `{a: active, b: active}`, crawl `{b}`.  The first run deactivates
`a`; the second run, with a legitimate iteration order of the (new)
intersection, *re-reports* `deactivated = [a] ≠ []`, because the
deleted list is `db_urls - waf_urls` regardless of the rows' current
`deleted` flags. -/
theorem reconcile_second_run_counterexample :
    IterEnum [("a", ⟨none, none, false⟩), ("b", ⟨none, none, false⟩)]
      ["b"] ["b"] ∧
    IterEnum (applySync [("a", ⟨none, none, false⟩), ("b", ⟨none, none, false⟩)]
      ["b"] ["b"]) ["b"] ["b"] ∧
    deactivatedOf
      (applySync [("a", ⟨none, none, false⟩), ("b", ⟨none, none, false⟩)]
        ["b"] ["b"]) ["b"] = ["a"] :=
  ⟨⟨by decide, by decide⟩, ⟨by decide, by decide⟩, by decide⟩

/-- C2 amended: running reconcile a second time with the same crawl
result immediately after the first application yields an empty added
list and an empty reactivated list, while the deactivated list equals
the first run's deactivated list (the known URLs absent from the crawl
are re-reported, not omitted). -/
theorem reconcile_second_run_amended (db : DB) (waf iter1 iter2 : List String)
    (h1 : IterEnum db waf iter1)
    (h2 : IterEnum (applySync db waf iter1) waf iter2) :
    addedOf (applySync db waf iter1) waf = [] ∧
    reactivatedOf (applySync db waf iter1) iter2 = [] ∧
    deactivatedOf (applySync db waf iter1) waf = deactivatedOf db waf := by
  have hK : dbUrls (applySync db waf iter1) = dbUrls db ∪ waf.toFinset :=
    dbUrls_applySync db waf iter1
  refine ⟨?_, ?_, ?_⟩
  · rw [List.eq_nil_iff_forall_not_mem]
    intro u hmem
    obtain ⟨huW, hnk⟩ := mem_addedOf.mp hmem
    refine hnk ?_
    have h1 : u ∈ dbUrls (applySync db waf iter1) := by
      rw [hK, Finset.mem_union]
      exact Or.inr (List.mem_toFinset.mpr huW)
    rw [dbUrls] at h1
    exact List.mem_toFinset.mp h1
  · unfold reactivatedOf
    rw [List.filter_eq_nil_iff]
    intro u hu
    have huW : u ∈ waf := by
      obtain ⟨-, hset2⟩ := h2
      have hm : u ∈ iter2.toFinset := List.mem_toFinset.mpr hu
      rw [hset2] at hm
      exact List.mem_toFinset.mp (Finset.mem_inter.mp hm).1
    simp [dbDeleted_applySync_of_mem_waf db waf iter1 h1 huW]
  · refine List.eq_of_perm_of_sorted ?_ (List.sorted_insertionSort _ _)
      (List.sorted_insertionSort _ _)
    refine ((List.perm_insertionSort _ _).trans ?_).trans
      (List.perm_insertionSort _ _).symm
    refine List.perm_of_nodup_nodup_toFinset_eq
      (List.Nodup.filter _ (List.nodup_dedup _))
      (List.Nodup.filter _ (List.nodup_dedup _)) ?_
    have hts : ∀ d : DB,
        ((d.map Prod.fst).dedup.filter (fun u => !waf.contains u)).toFinset
          = dbUrls d \ waf.toFinset := by
      intro d
      ext a
      simp only [List.mem_toFinset, List.mem_filter, List.mem_dedup,
        Finset.mem_sdiff, dbUrls]
      simp
    rw [hts, hts, hK]
    ext a
    simp only [Finset.mem_sdiff, Finset.mem_union]
    tauto

/-- Witness for C2 amended, at store `{a: active, b: active}` and crawl
`{b}`: the second run returns `added = []`, `reactivated = []`, and
re-reports `deactivated = [a]`, the first run's deactivated list. -/
theorem reconcile_second_run_amended_witness :
    addedOf (applySync [("a", ⟨none, none, false⟩), ("b", ⟨none, none, false⟩)]
        ["b"] ["b"]) ["b"] = [] ∧
    reactivatedOf
      (applySync [("a", ⟨none, none, false⟩), ("b", ⟨none, none, false⟩)]
        ["b"] ["b"]) ["b"] = [] ∧
    deactivatedOf
      (applySync [("a", ⟨none, none, false⟩), ("b", ⟨none, none, false⟩)]
        ["b"] ["b"]) ["b"]
      = deactivatedOf [("a", ⟨none, none, false⟩), ("b", ⟨none, none, false⟩)]
          ["b"] :=
  reconcile_second_run_amended
    [("a", ⟨none, none, false⟩), ("b", ⟨none, none, false⟩)] ["b"] ["b"] ["b"]
    ⟨by decide, by decide⟩ ⟨by decide, by decide⟩

/-- C3: after the merge step, the output table has no two rows with the
same source URL, and for every key the surviving row is the
last-occurring row in ingestion order (new records after existing
rows, later new records after earlier ones). -/
theorem merge_dedup_last_wins (existing newRecs : List MetaRecord) :
    ((mergeTables existing newRecs).map (fun r => r.source)).Nodup ∧
    ∀ k : String,
      (mergeTables existing newRecs).find? (fun r => r.source == k)
        = (existing ++ newRecs).reverse.find? (fun r => r.source == k) :=
  ⟨dropDupLast_sources_nodup _, fun k => find?_dropDupLast _ k⟩

/-- C7, counterexample.  The claim says all three result collections
are sorted lists, but the reactivated list is emitted in the
intersection set's iteration order, which CPython does not sort:
with both stored URLs inactive and iteration order `["b", "a"]`
(a legitimate enumeration of the intersection), the reactivated list is
`["b", "a"]`, not sorted. -/
theorem reactivated_not_sorted_counterexample :
    IterEnum [("b", ⟨none, none, true⟩), ("a", ⟨none, none, true⟩)]
      ["a", "b"] ["b", "a"] ∧
    reactivatedOf [("b", ⟨none, none, true⟩), ("a", ⟨none, none, true⟩)]
      ["b", "a"] = ["b", "a"] ∧
    ¬ List.Sorted (· ≤ ·)
      (reactivatedOf [("b", ⟨none, none, true⟩), ("a", ⟨none, none, true⟩)]
        ["b", "a"]) :=
  ⟨⟨by decide, by decide⟩, by decide, by decide⟩

/-- C7 amended: the added and deactivated lists are sorted; the
reactivated list is produced in the intersection's iteration order (a
sublist of it), and is not necessarily sorted. -/
theorem reconcile_sortedness_amended (db : DB) (waf iter : List String) :
    List.Sorted (· ≤ ·) (addedOf db waf) ∧
    List.Sorted (· ≤ ·) (deactivatedOf db waf) ∧
    List.Sublist (reactivatedOf db iter) iter :=
  ⟨List.sorted_insertionSort _ _, List.sorted_insertionSort _ _,
    List.filter_sublist _⟩

/-- C4, counterexample.  The claim says a rejected (HTTP ≥ 400) fetch
leaves the URL's store row untouched, last-checked timestamp included.
But the rejected result carries `changed: False`, so `main` sweeps it
into the *unchanged* bucket and calls `update_etag_record`: the row's
last-checked timestamp is overwritten ("t0" becomes "t1"), the prior
indicator is re-written in place. -/
theorem rejected_updates_store_counterexample :
    (fetch_conditional (fun _ => Except.error "e") "u" (some "x")
        (fun _ => Attempt.resp 404 none "")).1
      = { url := "u", etag := some "x", changed := some false,
          firstCheck := none, error := some "HTTP 404", metadata := none } ∧
    applyUpdates [("u", ⟨some "x", some "t0", false⟩)] "t1"
        (mainUpdates [(fetch_conditional (fun _ => Except.error "e") "u"
            (some "x") (fun _ => Attempt.resp 404 none "")).1])
      = [("u", ⟨some "x", some "t1", false⟩)] ∧
    (some "t1" : Option String) ≠ some "t0" :=
  ⟨by decide, by decide, by decide⟩

/-- C4 amended: a rejected (HTTP ≥ 400) fetch is classified without any
retry (exactly one attempt) and carries the prior indicator with
`changed = False`; because of that flag, `main`'s update loop rewrites
the URL's row, re-writing the same indicator value and setting the
last-checked timestamp to now; the active flag is untouched. -/
theorem rejected_no_retry_amended (parse : String → Except String XmlFields)
    (url : String) (etag0 : Option String) (script : Nat → Attempt)
    (st : Nat) (eh : Option String) (b : String)
    (hst : 400 ≤ st) (hs : script 0 = Attempt.resp st eh b)
    (db : DB) (now : String) :
    (fetch_conditional parse url etag0 script).2 = 1 ∧
    (fetch_conditional parse url etag0 script).1
      = { url := url, etag := etag0, changed := some false, firstCheck := none,
          error := some ("HTTP " ++ toString st), metadata := none } ∧
    applyUpdates db now (mainUpdates [(fetch_conditional parse url etag0 script).1])
      = db.map (fun p =>
          if p.1 = url then
            (p.1, { p.2 with etag := etag0, lastChecked := some now })
          else p) := by
  have h1 : fetch_conditional parse url etag0 script
      = (classifyResp parse url etag0 etag0.isNone st eh b, 1) :=
    fetch_conditional_resp parse url etag0 script st eh b hs
  have h2 := classifyResp_rejected parse url etag0 etag0.isNone st eh b hst
  rw [h1, h2]
  exact ⟨rfl, rfl, rfl⟩

/-- Witness for C4 amended: a 404 on the first attempt, store row
`(u, etag "x", last-checked "t0", active)`. -/
theorem rejected_no_retry_amended_witness :
    (fetch_conditional (fun _ => Except.error "e") "u" (some "x")
        (fun _ => Attempt.resp 404 none "")).2 = 1 ∧
    (fetch_conditional (fun _ => Except.error "e") "u" (some "x")
        (fun _ => Attempt.resp 404 none "")).1
      = { url := "u", etag := some "x", changed := some false, firstCheck := none,
          error := some ("HTTP " ++ toString 404), metadata := none } ∧
    applyUpdates [("u", ⟨some "x", some "t0", false⟩)] "t1"
        (mainUpdates [(fetch_conditional (fun _ => Except.error "e") "u"
            (some "x") (fun _ => Attempt.resp 404 none "")).1])
      = ([("u", ⟨some "x", some "t0", false⟩)] : DB).map (fun p =>
          if p.1 = "u" then
            (p.1, { p.2 with etag := some "x", lastChecked := some "t1" })
          else p) :=
  rejected_no_retry_amended (fun _ => Except.error "e") "u" (some "x")
    (fun _ => Attempt.resp 404 none "") 404 none "" (by omega) rfl
    [("u", ⟨some "x", some "t0", false⟩)] "t1"

/-- C5, counterexample.  The claim says the orchestrator aborts at the
first phase with nonzero exit status.  With the crawl phase failing
(exit code 1) and every later phase succeeding, the runner still
executes all four phases — the loop never breaks — and merely exits 1
at the end. -/
theorem pipeline_no_abort_counterexample :
    (fun s => if s = "url_scraper" then (1 : Int) else 0) "url_scraper" ≠ 0 ∧
    (pipelineLoop (fun s => if s = "url_scraper" then (1 : Int) else 0)
        STEPS).1
      = ["url_scraper", "metadata_scraper", "osim_meta", "cleanup_artifacts"] ∧
    (pipelineLoop (fun s => if s = "url_scraper" then (1 : Int) else 0)
        STEPS).2 = ["url_scraper"] ∧
    pipelineExit (fun s => if s = "url_scraper" then (1 : Int) else 0) = 1 :=
  ⟨by decide, by decide, by decide, by decide⟩

/-- C5 amended: the orchestrator runs all four phases in the fixed
order crawl, fetch, enrichment, retention cleanup, regardless of
individual failures (no abort), and reports overall success (exit zero)
exactly when every phase returned zero. -/
theorem pipeline_runs_all_amended (rc : String → Int) :
    (pipelineLoop rc STEPS).1 = STEPS ∧
    (pipelineExit rc = 0 ↔ ∀ s ∈ STEPS, rc s = 0) := by
  constructor
  · simp [STEPS, pipelineLoop]
  · by_cases h1 : rc "url_scraper" = 0 <;>
      by_cases h2 : rc "metadata_scraper" = 0 <;>
        by_cases h3 : rc "osim_meta" = 0 <;>
          by_cases h4 : rc "cleanup_artifacts" = 0 <;>
            simp [pipelineExit, pipelineLoop, STEPS, h1, h2, h3, h4]

/-- Witness for C5 amended at the all-zero exit-code assignment. -/
theorem pipeline_runs_all_amended_witness :
    (pipelineLoop (fun _ => (0 : Int)) STEPS).1 = STEPS ∧
    (pipelineExit (fun _ => (0 : Int)) = 0 ↔
      ∀ s ∈ STEPS, (fun _ => (0 : Int)) s = 0) :=
  pipeline_runs_all_amended (fun _ => 0)

/-- C6: when every transport attempt raises, the conditional fetch
issues exactly `RETRIES` attempts, no more, produces exactly one
terminal-failure result (the dict with only `url`, the prior `etag` and
`error`, no `changed` key), and `main` performs no store mutation for
that URL: the update loop skips it and the store is unchanged. -/
theorem retry_cap_honored (parse : String → Except String XmlFields)
    (url : String) (etag0 : Option String) (script : Nat → Attempt)
    (h : ∀ j, j < RETRIES → ∃ m, script j = Attempt.raise m)
    (db : DB) (now : String) :
    (fetch_conditional parse url etag0 script).2 = RETRIES ∧
    (fetch_conditional parse url etag0 script).1 = failResult url etag0 ∧
    mainUpdates [(fetch_conditional parse url etag0 script).1] = [] ∧
    applyUpdates db now
      (mainUpdates [(fetch_conditional parse url etag0 script).1]) = db := by
  have hall := fetch_conditional_all_raise parse url etag0 script h
  rw [hall]
  exact ⟨rfl, rfl, rfl, rfl⟩

/-- Witness for C6: every attempt raises. -/
theorem retry_cap_honored_witness :
    (fetch_conditional (fun _ => Except.error "e") "u" (some "x")
        (fun _ => Attempt.raise "boom")).2 = RETRIES ∧
    (fetch_conditional (fun _ => Except.error "e") "u" (some "x")
        (fun _ => Attempt.raise "boom")).1 = failResult "u" (some "x") ∧
    mainUpdates [(fetch_conditional (fun _ => Except.error "e") "u" (some "x")
        (fun _ => Attempt.raise "boom")).1] = [] ∧
    applyUpdates [("u", ⟨some "x", some "t0", false⟩)] "t1"
      (mainUpdates [(fetch_conditional (fun _ => Except.error "e") "u"
          (some "x") (fun _ => Attempt.raise "boom")).1])
      = [("u", ⟨some "x", some "t0", false⟩)] :=
  retry_cap_honored (fun _ => Except.error "e") "u" (some "x")
    (fun _ => Attempt.raise "boom") (fun _ _ => ⟨"boom", rfl⟩)
    [("u", ⟨some "x", some "t0", false⟩)] "t1"

/-- C8, counterexample.  The claim says the rewrite is applied exactly
to bare `.../iso/` branches.  The code's condition is a plain substring
test `"iso/" in url`: the URL `https://h/miso/a/` has no `/iso/` path
segment at all — `"/iso/"` does not occur in it and it does not end in
`iso/` — yet the rewrite fires and appends `xml/`. -/
theorem iso_rewrite_counterexample :
    rewriteIso "https://h/miso/a/" = "https://h/miso/a/xml/" ∧
    strContains "https://h/miso/a/" "/iso/" = false ∧
    endsWithStr "https://h/miso/a/" "iso/" = false :=
  ⟨by decide, by decide, by decide⟩

/-- C8 amended: the rewrite fires for exactly the URLs containing
`"iso/"` as a substring (not only bare `.../iso/` branches) whose
lowercased form ends neither in `".xml"` nor `"/xml/"`; it appends
`"xml/"` after ensuring a trailing slash (so a URL ending in `iso/` is
sent to its `.../iso/xml/` sibling), and it changes every URL it fires
on; URLs failing the condition are left unchanged. -/
theorem iso_rewrite_amended (url : String) :
    (strContains url "iso/" = true ∧
        endsWithStr (lowerStr url) ".xml" = false ∧
        endsWithStr (lowerStr url) "/xml/" = false →
      rewriteIso url
          = (if endsWithStr url "/" then url else url ++ "/") ++ "xml/" ∧
      rewriteIso url ≠ url) ∧
    (strContains url "iso/" = false ∨
        endsWithStr (lowerStr url) ".xml" = true ∨
        endsWithStr (lowerStr url) "/xml/" = true →
      rewriteIso url = url) := by
  constructor
  · rintro ⟨h1, h2, h3⟩
    have hcond : (strContains url "iso/"
        && !(endsWithStr (lowerStr url) ".xml"
              || endsWithStr (lowerStr url) "/xml/")) = true := by
      rw [h1, h2, h3]
      rfl
    refine ⟨by rw [rewriteIso, if_pos hcond], ?_⟩
    rw [rewriteIso, if_pos hcond]
    intro hcontra
    have hlen := congrArg (fun s : String => s.toList.length) hcontra
    have hx : ("xml/" : String).data.length = 4 := rfl
    have hs1 : ("/" : String).data.length = 1 := rfl
    simp only [String.toList] at hlen
    rw [String.data_append] at hlen
    by_cases hsl : endsWithStr url "/"
    · rw [if_pos hsl] at hlen
      rw [List.length_append, hx] at hlen
      omega
    · rw [if_neg (by simp [hsl])] at hlen
      rw [String.data_append, List.length_append, List.length_append,
        hx, hs1] at hlen
      omega
  · intro h
    have hcond : (strContains url "iso/"
        && !(endsWithStr (lowerStr url) ".xml"
              || endsWithStr (lowerStr url) "/xml/")) = false := by
      rcases h with h | h | h <;> simp [h]
    have hcond' : ¬ ((strContains url "iso/"
        && !(endsWithStr (lowerStr url) ".xml"
              || endsWithStr (lowerStr url) "/xml/")) = true) := by
      rw [hcond]
      exact Bool.false_ne_true
    rw [rewriteIso, if_neg hcond']

/-- Witness for C8 amended at the bare branch `https://h/x/iso/`: the
rewrite produces the `.../iso/xml/` sibling. -/
theorem iso_rewrite_amended_witness :
    rewriteIso "https://h/x/iso/"
        = (if endsWithStr "https://h/x/iso/" "/" then "https://h/x/iso/"
           else "https://h/x/iso/" ++ "/") ++ "xml/" ∧
    rewriteIso "https://h/x/iso/" ≠ "https://h/x/iso/" :=
  (iso_rewrite_amended "https://h/x/iso/").1 ⟨by decide, by decide, by decide⟩

/-- C9: a body that fails to parse on a "changed" (2xx/3xx non-304)
response still yields a changed outcome whose Extracted Record has the
error field set and every other named field absent, and that record is
included in the new records written downstream. -/
theorem parse_failure_record_kept (parse : String → Except String XmlFields)
    (url : String) (etag0 : Option String) (script : Nat → Attempt)
    (st : Nat) (eh : Option String) (b e : String)
    (hs : script 0 = Attempt.resp st eh b) (h304 : st ≠ 304) (hlt : st < 400)
    (hp : parse b = Except.error e) :
    (fetch_conditional parse url etag0 script).1.changed = some true ∧
    (fetch_conditional parse url etag0 script).1.metadata
      = some { source := url, uuid := none, fileIdentifier := none,
               title := none, edition := none, doi := none, dateStamp := none,
               error := some ("Invalid XML: " ++ e) } ∧
    newRecordsOf [(fetch_conditional parse url etag0 script).1]
      = [{ source := url, uuid := none, fileIdentifier := none,
           title := none, edition := none, doi := none, dateStamp := none,
           error := some ("Invalid XML: " ++ e) }] := by
  have h1 : fetch_conditional parse url etag0 script
      = (classifyResp parse url etag0 etag0.isNone st eh b, 1) :=
    fetch_conditional_resp parse url etag0 script st eh b hs
  have h2 := classifyResp_changed parse url etag0 etag0.isNone st eh b h304 hlt
  have hrec : extract_metadata parse b url
      = { source := url, uuid := none, fileIdentifier := none,
          title := none, edition := none, doi := none, dateStamp := none,
          error := some ("Invalid XML: " ++ e) } := by
    rw [extract_metadata.eq_def, hp]
  rw [h1, h2]
  refine ⟨rfl, ?_, ?_⟩
  · rw [hrec]
  · rw [hrec]
    rfl

/-- Witness for C9: status 200, a parser that always fails. -/
theorem parse_failure_record_kept_witness :
    (fetch_conditional (fun _ => Except.error "boom") "u" none
        (fun _ => Attempt.resp 200 none "<bad")).1.changed = some true ∧
    (fetch_conditional (fun _ => Except.error "boom") "u" none
        (fun _ => Attempt.resp 200 none "<bad")).1.metadata
      = some { source := "u", uuid := none, fileIdentifier := none,
               title := none, edition := none, doi := none, dateStamp := none,
               error := some ("Invalid XML: " ++ "boom") } ∧
    newRecordsOf [(fetch_conditional (fun _ => Except.error "boom") "u" none
        (fun _ => Attempt.resp 200 none "<bad")).1]
      = [{ source := "u", uuid := none, fileIdentifier := none,
           title := none, edition := none, doi := none, dateStamp := none,
           error := some ("Invalid XML: " ++ "boom") }] :=
  parse_failure_record_kept (fun _ => Except.error "boom") "u" none
    (fun _ => Attempt.resp 200 none "<bad") 200 none "<bad" "boom"
    rfl (by omega) (by omega) rfl

/-- C10: a 200 response with a body but no `ETag` header is still
classified as changed with an extracted record; the result's etag is
`None`, so `main` overwrites the store indicator with null (and bumps
last-checked), and a subsequent run that loads this row gets a null
indicator: it sends no `If-None-Match` header, i.e. an unconditional
full fetch. -/
theorem missing_etag_header_resets_indicator
    (parse : String → Except String XmlFields)
    (url : String) (etag0 : Option String) (script : Nat → Attempt)
    (b : String) (hs : script 0 = Attempt.resp 200 none b)
    (db : DB) (now : String) :
    (fetch_conditional parse url etag0 script).1.changed = some true ∧
    (fetch_conditional parse url etag0 script).1.metadata
      = some (extract_metadata parse b url) ∧
    (fetch_conditional parse url etag0 script).1.etag = none ∧
    applyUpdates db now
        (mainUpdates [(fetch_conditional parse url etag0 script).1])
      = db.map (fun p =>
          if p.1 = url then
            (p.1, { p.2 with etag := none, lastChecked := some now })
          else p) ∧
    (∀ e' : Option String,
      (load_active_etags (applyUpdates db now
          (mainUpdates [(fetch_conditional parse url etag0 script).1]))).lookup url
        = some e' →
      e' = none ∧ ifNoneMatchHeader e' = none) := by
  have h1 : fetch_conditional parse url etag0 script
      = (classifyResp parse url etag0 etag0.isNone 200 none b, 1) :=
    fetch_conditional_resp parse url etag0 script 200 none b hs
  have h2 := classifyResp_changed parse url etag0 etag0.isNone 200 none b
    (by omega) (by omega)
  rw [h1, h2]
  refine ⟨rfl, rfl, rfl, rfl, ?_⟩
  intro e' hlook
  obtain ⟨r, hmem, -, hre⟩ := lookup_load_active_mem hlook
  have hnone : r.etag = none := etag_none_of_mem_mapped hmem
  rw [← hre, hnone]
  exact ⟨rfl, rfl⟩

/-- Witness for C10: a 200 with no `ETag` header against the store row
`(u, etag "old", active)`. -/
theorem missing_etag_header_resets_indicator_witness :
    (fetch_conditional (fun _ => Except.error "e") "u" (some "old")
        (fun _ => Attempt.resp 200 none "<x>")).1.changed = some true ∧
    (fetch_conditional (fun _ => Except.error "e") "u" (some "old")
        (fun _ => Attempt.resp 200 none "<x>")).1.metadata
      = some (extract_metadata (fun _ => Except.error "e") "<x>" "u") ∧
    (fetch_conditional (fun _ => Except.error "e") "u" (some "old")
        (fun _ => Attempt.resp 200 none "<x>")).1.etag = none ∧
    applyUpdates [("u", ⟨some "old", some "t0", false⟩)] "t1"
        (mainUpdates [(fetch_conditional (fun _ => Except.error "e") "u"
            (some "old") (fun _ => Attempt.resp 200 none "<x>")).1])
      = ([("u", ⟨some "old", some "t0", false⟩)] : DB).map (fun p =>
          if p.1 = "u" then
            (p.1, { p.2 with etag := none, lastChecked := some "t1" })
          else p) ∧
    (∀ e' : Option String,
      (load_active_etags (applyUpdates [("u", ⟨some "old", some "t0", false⟩)]
          "t1" (mainUpdates [(fetch_conditional (fun _ => Except.error "e") "u"
              (some "old") (fun _ => Attempt.resp 200 none "<x>")).1]))).lookup "u"
        = some e' →
      e' = none ∧ ifNoneMatchHeader e' = none) :=
  missing_etag_header_resets_indicator (fun _ => Except.error "e") "u"
    (some "old") (fun _ => Attempt.resp 200 none "<x>") "<x>" rfl
    [("u", ⟨some "old", some "t0", false⟩)] "t1"

end NoaaScraper
